import Mathlib

/-!
A shallow embedding of the streaming UTF-8 decoder of `src/lib.rs`
(`Utf8Decoder<R>` and its `Iterator::next` implementation), together with
theorems about its behaviour.

The byte source (`Bytes<R>`) yields a stream of `Result<u8, io::Error>`
items; we model the not-yet-consumed part of that stream as a list of
`SourceItem`s.  A call to `next` consumes a prefix of that list and
returns one outcome; machine integers are modelled as `Nat` (the `u32`
accumulator never comes close to overflow: it is bounded by `2 ^ 21`)
and the `i32` counter `bytes_remaining_count` as `Int`.
`char::from_u32(..).unwrap()` is fallible (it panics on values that are
not Unicode scalar values), so its outcome is made explicit.
-/

set_option maxRecDepth 4096

namespace Utf8Decode

/-- One item yielded by the wrapped byte iterator (`Bytes<R>`): either a
successfully read byte (a `u8`, so a `Nat` below `256` in every intended
use) or a propagated read error, abstracted by a numeric code. -/
inductive SourceItem where
  | ok (b : Nat)
  | err (e : Nat)
deriving DecidableEq

/-- The outcome of one call to `Utf8Decoder::next`:
`char c` is `Some(Ok(c))` (a decoded scalar value, or the replacement
character), `srcErr e` is `Some(Err(e))` (a propagated source error),
`eos` is `None` (end of stream), and `panicked` records a failed
`unwrap` inside the call. -/
inductive NextResult where
  | char (c : Nat)
  | srcErr (e : Nat)
  | eos
  | panicked
deriving DecidableEq

/-- The constant `REPLACEMENT_CHARACTER` of `src/lib.rs` (U+FFFD),
as a scalar value. -/
def REPLACEMENT_CHARACTER : Nat := 0xFFFD

/-- Rust `char::from_u32`: `some v` exactly when `v` is a Unicode scalar
value (not a surrogate, not above `0x10FFFF`). -/
def charFromU32 (v : Nat) : Option Nat :=
  if 0xD800 ≤ v ∧ v ≤ 0xDFFF then none
  else if 0x110000 ≤ v then none
  else some v

/-- `char::from_u32(v).unwrap()`: the decoded character, or a panic when
`v` is not a scalar value. -/
def unwrapChar (v : Nat) : NextResult :=
  match charFromU32 v with
  | some c => .char c
  | none => .panicked

/-- The `for` loop inside `Utf8Decoder::next` (src/lib.rs lines 30-85).
Arguments: the `codepoint` accumulator, `bytes_remaining_count`
(an `i32`; `-1` means "awaiting a leading byte"), and the items the
byte source has yet to yield.  Returns the call's outcome together with
the items left unconsumed for the following call. -/
def nextLoop : Nat → Int → List SourceItem → NextResult × List SourceItem
  | _, _, [] => (.eos, [])
  | _, _, .err e :: rest => (.srcErr e, rest)
  | codepoint, bytesRemainingCount, .ok c :: rest =>
    if bytesRemainingCount = -1 then
      -- read leading byte
      if c &&& 0x80 = 0 then
        -- 1 byte character
        (unwrapChar c, rest)
      else if c &&& 0xE0 = 0xC0 then
        -- 2 byte character
        if c = 0xC0 ∨ c = 0xC1 then
          (.char REPLACEMENT_CHARACTER, rest)
        else
          nextLoop ((c &&& 0x1F) <<< 6) 1 rest
      else if c &&& 0xF0 = 0xE0 then
        -- 3 byte character
        nextLoop ((c &&& 0xF) <<< 12) 2 rest
      else if c &&& 0xF8 = 0xF0 then
        -- 4 byte character
        nextLoop ((c &&& 0x7) <<< 18) 3 rest
      else
        (.char REPLACEMENT_CHARACTER, rest)
    else if bytesRemainingCount > 0 then
      -- read continuation bytes
      if c &&& 0xC0 = 0x80 then
        let codepoint' := codepoint ||| (c &&& 0x3F) <<< (6 * (bytesRemainingCount - 1)).toNat
        if bytesRemainingCount - 1 = 0 then
          if ¬ (0xD800 ≤ codepoint' ∧ codepoint' ≤ 0xDFFF) then
            (unwrapChar codepoint', rest)
          else
            (.char REPLACEMENT_CHARACTER, rest)
        else
          nextLoop codepoint' (bytesRemainingCount - 1) rest
      else
        (.char REPLACEMENT_CHARACTER, rest)
    else
      nextLoop codepoint bytesRemainingCount rest

/-- The decoder state: the struct `Utf8Decoder` has a single field, the
byte-source iteration handle `bytes_iterator`, modelled as the list of
items the source has yet to yield. -/
abbrev Utf8Decoder := List SourceItem

/-- `Utf8Decoder::next`: the locals `codepoint` and
`bytes_remaining_count` are initialized to `0` and `-1` at the start of
every call. -/
def next (d : Utf8Decoder) : NextResult × Utf8Decoder :=
  nextLoop 0 (-1) d

/-- Iterate `next`, collecting the returned items until it reports
end-of-stream (fuel-bounded; `fuel = length + 1` always suffices). -/
def decodeList : Nat → Utf8Decoder → List NextResult
  | 0, _ => []
  | fuel + 1, d =>
    match next d with
    | (.eos, _) => []
    | (r, rest) => r :: decodeList fuel rest

/-- The standard UTF-8 encoding of a code point, as defined by the
Unicode Standard (the spec's "standard UTF-8 encoding"; encoding is not
implemented in `src/lib.rs`, so this is the mathematical reference
definition used to state the round-trip property). -/
def utf8Encode (p : Nat) : List Nat :=
  if p < 0x80 then [p]
  else if p < 0x800 then [0xC0 + p / 64, 0x80 + p % 64]
  else if p < 0x10000 then [0xE0 + p / 4096, 0x80 + p / 64 % 64, 0x80 + p % 64]
  else [0xF0 + p / 262144, 0x80 + p / 4096 % 64, 0x80 + p / 64 % 64, 0x80 + p % 64]

/-- The spec's description of the numeric fold semantics for a 2-byte
sequence: the single continuation byte contributes its low 6 bits
weighted by `2 ^ (6 * 0)` (no continuation bytes remain after it). -/
def msbFirstValue2 (c d1 : Nat) : Nat :=
  (c &&& 0x1F) * 2 ^ 6 + (d1 &&& 0x3F) * 2 ^ (6 * 0)

/-- The spec's description of the numeric fold semantics for a 3-byte
sequence: each continuation byte contributes its low 6 bits weighted by
`2 ^ (6 * number of continuation bytes remaining after it)`. -/
def msbFirstValue3 (c d1 d2 : Nat) : Nat :=
  (c &&& 0xF) * 2 ^ 12 + (d1 &&& 0x3F) * 2 ^ (6 * 1) + (d2 &&& 0x3F) * 2 ^ (6 * 0)

/-- The spec's description of the numeric fold semantics for a 4-byte
sequence: each continuation byte contributes its low 6 bits weighted by
`2 ^ (6 * number of continuation bytes remaining after it)`. -/
def msbFirstValue4 (c d1 d2 d3 : Nat) : Nat :=
  (c &&& 0x7) * 2 ^ 18 + (d1 &&& 0x3F) * 2 ^ (6 * 2) + (d2 &&& 0x3F) * 2 ^ (6 * 1) +
    (d3 &&& 0x3F) * 2 ^ (6 * 0)

/-! ### Arithmetic helpers -/

theorem land_of_land {c a b v : Nat} (hab : a &&& b = b) (h : c &&& a = v) :
    c &&& b = v &&& b :=
  calc c &&& b = c &&& (a &&& b) := by rw [hab]
    _ = c &&& a &&& b := (Nat.land_assoc c a b).symm
    _ = v &&& b := by rw [h]

theorem lor_mul_add (k m : Nat) {r : Nat} (h : r < 2 ^ k) :
    m * 2 ^ k ||| r = m * 2 ^ k + r := by
  rw [Nat.mul_comm m (2 ^ k)]
  exact (Nat.mul_add_lt_is_or h m).symm

theorem land_pred_two_pow_lt (d k : Nat) : d &&& (2 ^ k - 1) < 2 ^ k := by
  rw [Nat.and_pow_two_sub_one_eq_mod]
  exact Nat.mod_lt _ (Nat.pos_pow_of_pos k (by decide))

theorem land63_lt (d : Nat) : d &&& 63 < 64 := by
  have h := land_pred_two_pow_lt d 6
  norm_num at h
  exact h

theorem land31_lt (d : Nat) : d &&& 31 < 32 := by
  have h := land_pred_two_pow_lt d 5
  norm_num at h
  exact h

theorem land15_lt (d : Nat) : d &&& 15 < 16 := by
  have h := land_pred_two_pow_lt d 4
  norm_num at h
  exact h

theorem fold2 (x : Nat) {y : Nat} (hy : y < 64) : x <<< 6 ||| y = x * 64 + y := by
  rw [Nat.shiftLeft_eq]
  have h := lor_mul_add 6 x (r := y) (by norm_num; exact hy)
  norm_num at h ⊢
  exact h

theorem fold3 (x : Nat) {y z : Nat} (hy : y < 64) (hz : z < 64) :
    x <<< 12 ||| y <<< 6 ||| z = x * 4096 + y * 64 + z := by
  rw [Nat.shiftLeft_eq, Nat.shiftLeft_eq]
  have h1 := lor_mul_add 12 x (r := y * 2 ^ 6) (by norm_num; omega)
  rw [h1]
  have h2 : x * 2 ^ 12 + y * 2 ^ 6 = (x * 64 + y) * 2 ^ 6 := by ring
  rw [h2, lor_mul_add 6 (x * 64 + y) (by norm_num; exact hz)]
  ring

theorem fold4 (x : Nat) {y z w : Nat} (hy : y < 64) (hz : z < 64) (hw : w < 64) :
    x <<< 18 ||| y <<< 12 ||| z <<< 6 ||| w = x * 262144 + y * 4096 + z * 64 + w := by
  rw [Nat.shiftLeft_eq, Nat.shiftLeft_eq, Nat.shiftLeft_eq]
  have h1 := lor_mul_add 18 x (r := y * 2 ^ 12) (by norm_num; omega)
  rw [h1]
  have h2 : x * 2 ^ 18 + y * 2 ^ 12 = (x * 64 + y) * 2 ^ 12 := by ring
  rw [h2]
  have h3 := lor_mul_add 12 (x * 64 + y) (r := z * 2 ^ 6) (by norm_num; omega)
  rw [h3]
  have h4 : (x * 64 + y) * 2 ^ 12 + z * 2 ^ 6 = ((x * 64 + y) * 64 + z) * 2 ^ 6 := by ring
  rw [h4, lor_mul_add 6 ((x * 64 + y) * 64 + z) (by norm_num; exact hw)]
  ring

/-! ### One-step evaluation lemmas for `nextLoop` -/

theorem nextLoop_nil (acc : Nat) (k : Int) : nextLoop acc k [] = (.eos, []) := rfl

theorem nextLoop_err (acc : Nat) (k : Int) (e : Nat) (rest : List SourceItem) :
    nextLoop acc k (.err e :: rest) = (.srcErr e, rest) := rfl

theorem next_lead_ascii {c : Nat} (h : c &&& 0x80 = 0) (rest : List SourceItem) :
    nextLoop 0 (-1) (.ok c :: rest) = (unwrapChar c, rest) := by
  simp [nextLoop, h]

theorem next_lead2 {c : Nat} (h : c &&& 0xE0 = 0xC0) (hc0 : c ≠ 0xC0) (hc1 : c ≠ 0xC1)
    (rest : List SourceItem) :
    nextLoop 0 (-1) (.ok c :: rest) = nextLoop ((c &&& 0x1F) <<< 6) 1 rest := by
  have h1 : c &&& 0x80 = 0x80 := by
    have := land_of_land (a := 0xE0) (b := 0x80) (by decide) h
    simpa using this
  simp [nextLoop, h, h1, hc0, hc1]

theorem next_lead3 {c : Nat} (h : c &&& 0xF0 = 0xE0) (rest : List SourceItem) :
    nextLoop 0 (-1) (.ok c :: rest) = nextLoop ((c &&& 0xF) <<< 12) 2 rest := by
  have h1 : c &&& 0x80 = 0x80 := by
    have := land_of_land (a := 0xF0) (b := 0x80) (by decide) h
    simpa using this
  have h2 : c &&& 0xE0 = 0xE0 := by
    have := land_of_land (a := 0xF0) (b := 0xE0) (by decide) h
    simpa using this
  simp [nextLoop, h, h1, h2]

theorem next_lead4 {c : Nat} (h : c &&& 0xF8 = 0xF0) (rest : List SourceItem) :
    nextLoop 0 (-1) (.ok c :: rest) = nextLoop ((c &&& 0x7) <<< 18) 3 rest := by
  have h1 : c &&& 0x80 = 0x80 := by
    have := land_of_land (a := 0xF8) (b := 0x80) (by decide) h
    simpa using this
  have h2 : c &&& 0xE0 = 0xE0 := by
    have := land_of_land (a := 0xF8) (b := 0xE0) (by decide) h
    simpa using this
  have h3 : c &&& 0xF0 = 0xF0 := by
    have := land_of_land (a := 0xF8) (b := 0xF0) (by decide) h
    simpa using this
  simp [nextLoop, h, h1, h2, h3]

theorem next_lead_invalid {c : Nat} (h1 : c &&& 0x80 ≠ 0) (h2 : c &&& 0xE0 ≠ 0xC0)
    (h3 : c &&& 0xF0 ≠ 0xE0) (h4 : c &&& 0xF8 ≠ 0xF0) (rest : List SourceItem) :
    nextLoop 0 (-1) (.ok c :: rest) = (.char REPLACEMENT_CHARACTER, rest) := by
  simp [nextLoop, h1, h2, h3, h4]

theorem next_cont3 {d : Nat} (h : d &&& 0xC0 = 0x80) (acc : Nat) (rest : List SourceItem) :
    nextLoop acc 3 (.ok d :: rest) = nextLoop (acc ||| (d &&& 0x3F) <<< 12) 2 rest := by
  simp [nextLoop, h]

theorem next_cont2 {d : Nat} (h : d &&& 0xC0 = 0x80) (acc : Nat) (rest : List SourceItem) :
    nextLoop acc 2 (.ok d :: rest) = nextLoop (acc ||| (d &&& 0x3F) <<< 6) 1 rest := by
  simp [nextLoop, h]

theorem next_cont1 {d : Nat} (h : d &&& 0xC0 = 0x80) (acc : Nat) (rest : List SourceItem) :
    nextLoop acc 1 (.ok d :: rest) =
      if ¬ (0xD800 ≤ acc ||| (d &&& 0x3F) ∧ acc ||| (d &&& 0x3F) ≤ 0xDFFF) then
        (unwrapChar (acc ||| (d &&& 0x3F)), rest)
      else
        (.char REPLACEMENT_CHARACTER, rest) := by
  simp [nextLoop, h]

theorem next_cont_invalid {d : Nat} (h : d &&& 0xC0 ≠ 0x80) (acc : Nat) {k : Int}
    (hk : 0 < k) (rest : List SourceItem) :
    nextLoop acc k (.ok d :: rest) = (.char REPLACEMENT_CHARACTER, rest) := by
  have hk' : k ≠ -1 := by omega
  simp [nextLoop, hk', hk, h]

/-! ### Bounded byte facts (settled by exhaustive evaluation) -/

theorem lt128_of_land128 : ∀ b < 256, b &&& 0x80 = 0 → b < 128 := by decide

theorem land128_of_lt : ∀ p < 128, p &&& 0x80 = 0 := by decide

theorem lead2_land : ∀ q < 32, (0xC0 + q) &&& 0xE0 = 0xC0 ∧ (0xC0 + q) &&& 0x1F = q := by decide

theorem lead3_land : ∀ q < 16, (0xE0 + q) &&& 0xF0 = 0xE0 ∧ (0xE0 + q) &&& 0xF = q := by decide

theorem lead4_land : ∀ q < 8, (0xF0 + q) &&& 0xF8 = 0xF0 ∧ (0xF0 + q) &&& 0x7 = q := by decide

theorem cont_land : ∀ r < 64, (0x80 + r) &&& 0xC0 = 0x80 ∧ (0x80 + r) &&& 0x3F = r := by decide

theorem charFromU32_scalar {v : Nat} (hs : ¬ (0xD800 ≤ v ∧ v ≤ 0xDFFF)) (hv : v < 0x110000) :
    charFromU32 v = some v := by
  unfold charFromU32
  rw [if_neg hs, if_neg (by omega)]

theorem unwrapChar_scalar {v : Nat} (hs : ¬ (0xD800 ≤ v ∧ v ≤ 0xDFFF)) (hv : v < 0x110000) :
    unwrapChar v = .char v := by
  unfold unwrapChar
  rw [charFromU32_scalar hs hv]

/-! ### The claims -/

/-- C7: a failing source read is propagated by `next` as a distinct
source-error result (never substituted by the replacement character, or
any character at all), terminating that decode attempt.  This covers a
failure on the call's first read — a single source error, no characters
— and equally a failure mid-sequence, after a valid multi-byte leading
byte and any number of valid continuation bytes have already been
consumed in the same call. -/
theorem source_error_propagated :
    (∀ (e : Nat) (rest : Utf8Decoder), next (.err e :: rest) = (.srcErr e, rest)) ∧
    (∀ (c e : Nat) (ds : List Nat) (rest : Utf8Decoder),
      ((c &&& 0xE0 = 0xC0 ∧ c ≠ 0xC0 ∧ c ≠ 0xC1 ∧ ds.length < 1) ∨
       (c &&& 0xF0 = 0xE0 ∧ ds.length < 2) ∨
       (c &&& 0xF8 = 0xF0 ∧ ds.length < 3)) →
      (∀ d ∈ ds, d &&& 0xC0 = 0x80) →
      next (.ok c :: (ds.map .ok ++ .err e :: rest)) = (.srcErr e, rest)) ∧
    (∀ (e c : Nat), NextResult.srcErr e ≠ NextResult.char c) := by
  refine ⟨fun e rest => rfl, ?_, fun e c h => by cases h⟩
  intro c e ds rest hclass hds
  rcases hclass with ⟨h, h0, h1, hl⟩ | ⟨h, hl⟩ | ⟨h, hl⟩
  · match ds, hl with
    | [], _ =>
      rw [next, List.map_nil, List.nil_append, next_lead2 h h0 h1, nextLoop_err]
  · match ds, hl with
    | [], _ =>
      rw [next, List.map_nil, List.nil_append, next_lead3 h, nextLoop_err]
    | [d], _ =>
      have hd := hds d (by simp)
      rw [next, List.map_cons, List.map_nil, List.cons_append, List.nil_append,
        next_lead3 h, next_cont2 hd, nextLoop_err]
  · match ds, hl with
    | [], _ =>
      rw [next, List.map_nil, List.nil_append, next_lead4 h, nextLoop_err]
    | [d], _ =>
      have hd := hds d (by simp)
      rw [next, List.map_cons, List.map_nil, List.cons_append, List.nil_append,
        next_lead4 h, next_cont3 hd, nextLoop_err]
    | [d, d'], _ =>
      have hd := hds d (by simp)
      have hd' := hds d' (by simp)
      rw [next, List.map_cons, List.map_cons, List.map_nil, List.cons_append,
        List.cons_append, List.nil_append, next_lead4 h, next_cont3 hd,
        next_cont2 hd', nextLoop_err]

theorem source_error_propagated_witness :
    next (.ok 0xE0 :: (List.map .ok [] ++ .err 7 :: [])) = (.srcErr 7, []) :=
  source_error_propagated.2.1 0xE0 7 [] [] (Or.inr (Or.inl (by decide))) (by decide)

/-- C8: a single byte `b` with high bit 0, presented as the whole input,
decodes to the scalar value `b` itself (its low 7 bits), and the
following call reports end-of-stream. -/
theorem ascii_byte_decodes_to_itself (b : Nat) (hb : b < 256) (h : b &&& 0x80 = 0) :
    next [.ok b] = (.char b, []) ∧ next [] = (.eos, []) := by
  have hb7 : b < 128 := lt128_of_land128 b hb h
  refine ⟨?_, rfl⟩
  rw [next, next_lead_ascii h, unwrapChar_scalar (by omega) (by omega)]

theorem ascii_byte_decodes_to_itself_witness :
    next [.ok 0x61] = (.char 0x61, []) ∧ next [] = (.eos, []) :=
  ascii_byte_decodes_to_itself 0x61 (by decide) (by decide)

/-- C6: the overlong-encoding leaders `0xC0` and `0xC1` make `next`
return the replacement character immediately, consuming no further
byte; in particular `[0xC0, 0xC1]` decodes to two replacement
characters followed by end-of-stream. -/
theorem overlong_leaders_rejected :
    (∀ (b : Nat) (rest : Utf8Decoder), b = 0xC0 ∨ b = 0xC1 →
      next (.ok b :: rest) = (.char REPLACEMENT_CHARACTER, rest)) ∧
    decodeList 3 [.ok 0xC0, .ok 0xC1] = [.char REPLACEMENT_CHARACTER, .char REPLACEMENT_CHARACTER] := by
  refine ⟨?_, by decide⟩
  rintro b rest (rfl | rfl) <;> rfl

theorem overlong_leaders_rejected_witness :
    next [.ok 0xC0] = (.char REPLACEMENT_CHARACTER, []) :=
  overlong_leaders_rejected.1 0xC0 [] (Or.inl rfl)

/-- C4: a valid multi-byte leading byte followed by a byte that does not
match the continuation pattern `10xxxxxx` yields exactly one replacement
character for that call; the rejected byte is consumed, and the
following call resumes from the items after it (the returned rest). -/
theorem rejected_continuation_dropped (c d : Nat) (rest : Utf8Decoder)
    (hc : (c &&& 0xE0 = 0xC0 ∧ c ≠ 0xC0 ∧ c ≠ 0xC1) ∨ c &&& 0xF0 = 0xE0 ∨ c &&& 0xF8 = 0xF0)
    (hd : d &&& 0xC0 ≠ 0x80) :
    next (.ok c :: .ok d :: rest) = (.char REPLACEMENT_CHARACTER, rest) := by
  rcases hc with ⟨h, h0, h1⟩ | h | h
  · rw [next, next_lead2 h h0 h1, next_cont_invalid hd _ (by decide)]
  · rw [next, next_lead3 h, next_cont_invalid hd _ (by decide)]
  · rw [next, next_lead4 h, next_cont_invalid hd _ (by decide)]

theorem rejected_continuation_dropped_witness :
    next [.ok 0xC2, .ok 0xE3, .ok 0x61] = (.char REPLACEMENT_CHARACTER, [.ok 0x61]) :=
  rejected_continuation_dropped 0xC2 0xE3 [.ok 0x61] (Or.inl (by decide)) (by decide)

/-- C5: a complete multi-byte sequence whose assembled code point lies
in the UTF-16 surrogate range `0xD800`-`0xDFFF` makes `next` return the
replacement character, not the assembled value.  (A 2-byte sequence
assembles to at most `0x7FF`, so the surrogate range is only reachable
by 3- and 4-byte sequences, both covered here.) -/
theorem surrogate_rejected :
    (∀ (c d1 d2 : Nat) (rest : Utf8Decoder),
      c &&& 0xF0 = 0xE0 → d1 &&& 0xC0 = 0x80 → d2 &&& 0xC0 = 0x80 →
      0xD800 ≤ (c &&& 0xF) <<< 12 ||| (d1 &&& 0x3F) <<< 6 ||| (d2 &&& 0x3F) →
      (c &&& 0xF) <<< 12 ||| (d1 &&& 0x3F) <<< 6 ||| (d2 &&& 0x3F) ≤ 0xDFFF →
      next (.ok c :: .ok d1 :: .ok d2 :: rest) = (.char REPLACEMENT_CHARACTER, rest)) ∧
    (∀ (c d1 d2 d3 : Nat) (rest : Utf8Decoder),
      c &&& 0xF8 = 0xF0 → d1 &&& 0xC0 = 0x80 → d2 &&& 0xC0 = 0x80 → d3 &&& 0xC0 = 0x80 →
      0xD800 ≤ (c &&& 0x7) <<< 18 ||| (d1 &&& 0x3F) <<< 12 ||| (d2 &&& 0x3F) <<< 6 ||| (d3 &&& 0x3F) →
      (c &&& 0x7) <<< 18 ||| (d1 &&& 0x3F) <<< 12 ||| (d2 &&& 0x3F) <<< 6 ||| (d3 &&& 0x3F) ≤ 0xDFFF →
      next (.ok c :: .ok d1 :: .ok d2 :: .ok d3 :: rest) = (.char REPLACEMENT_CHARACTER, rest)) := by
  constructor
  · intro c d1 d2 rest hc h1 h2 hlo hhi
    rw [next, next_lead3 hc, next_cont2 h1, next_cont1 h2,
      if_neg (not_not_intro ⟨hlo, hhi⟩)]
  · intro c d1 d2 d3 rest hc h1 h2 h3 hlo hhi
    rw [next, next_lead4 hc, next_cont3 h1, next_cont2 h2, next_cont1 h3,
      if_neg (not_not_intro ⟨hlo, hhi⟩)]

theorem surrogate_rejected_witness :
    next [.ok 0xED, .ok 0xA0, .ok 0x80] = (.char REPLACEMENT_CHARACTER, []) :=
  surrogate_rejected.1 0xED 0xA0 0x80 [] (by decide) (by decide) (by decide)
    (by decide) (by decide)

/-- C9: in every complete multi-byte decode (2-, 3- and 4-byte),
continuation bytes are folded most-significant-group-first — the
returned scalar is exactly the spec's weighted sum (`msbFirstValue2`,
`msbFirstValue3`, `msbFirstValue4` respectively), in which each
continuation byte's low 6 bits are weighted by `2 ^ (6 * number of
continuation bytes remaining after it)`, so the first continuation
byte always supplies the second-most-significant 6-bit group, right
below the leading byte's bits.  (A 2-byte value is at most `0x7FF`, a
3-byte value at most `0xFFFF`, so only the hypotheses needed to reach
the `char` return are assumed in each part.) -/
theorem continuation_fold_msb_first :
    (∀ (c d1 : Nat) (rest : Utf8Decoder),
      c &&& 0xE0 = 0xC0 → c ≠ 0xC0 → c ≠ 0xC1 → d1 &&& 0xC0 = 0x80 →
      next (.ok c :: .ok d1 :: rest) = (.char (msbFirstValue2 c d1), rest)) ∧
    (∀ (c d1 d2 : Nat) (rest : Utf8Decoder),
      c &&& 0xF0 = 0xE0 → d1 &&& 0xC0 = 0x80 → d2 &&& 0xC0 = 0x80 →
      ¬ (0xD800 ≤ msbFirstValue3 c d1 d2 ∧ msbFirstValue3 c d1 d2 ≤ 0xDFFF) →
      next (.ok c :: .ok d1 :: .ok d2 :: rest) = (.char (msbFirstValue3 c d1 d2), rest)) ∧
    (∀ (c d1 d2 d3 : Nat) (rest : Utf8Decoder),
      c &&& 0xF8 = 0xF0 → d1 &&& 0xC0 = 0x80 → d2 &&& 0xC0 = 0x80 → d3 &&& 0xC0 = 0x80 →
      ¬ (0xD800 ≤ msbFirstValue4 c d1 d2 d3 ∧ msbFirstValue4 c d1 d2 d3 ≤ 0xDFFF) →
      msbFirstValue4 c d1 d2 d3 < 0x110000 →
      next (.ok c :: .ok d1 :: .ok d2 :: .ok d3 :: rest) =
        (.char (msbFirstValue4 c d1 d2 d3), rest)) := by
  refine ⟨?_, ?_, ?_⟩
  · intro c d1 rest hc h0 h1 hd
    have e : (c &&& 0x1F) <<< 6 ||| (d1 &&& 0x3F) = msbFirstValue2 c d1 := by
      rw [fold2 _ (land63_lt d1), msbFirstValue2]
      norm_num
    have hv : msbFirstValue2 c d1 < 0x800 := by
      have hx := land31_lt c
      have hy := land63_lt d1
      rw [msbFirstValue2]
      norm_num
      omega
    rw [next, next_lead2 hc h0 h1, next_cont1 hd, e, if_pos (by omega),
      unwrapChar_scalar (by omega) (by omega)]
  · intro c d1 d2 rest hc h1 h2 hs
    have e : (c &&& 0xF) <<< 12 ||| (d1 &&& 0x3F) <<< 6 ||| (d2 &&& 0x3F)
        = msbFirstValue3 c d1 d2 := by
      rw [fold3 _ (land63_lt d1) (land63_lt d2), msbFirstValue3]
      norm_num
    have hv : msbFirstValue3 c d1 d2 < 0x10000 := by
      have hx := land15_lt c
      have hy := land63_lt d1
      have hz := land63_lt d2
      rw [msbFirstValue3]
      norm_num
      omega
    rw [next, next_lead3 hc, next_cont2 h1, next_cont1 h2, e, if_pos hs,
      unwrapChar_scalar hs (by omega)]
  · intro c d1 d2 d3 rest hc h1 h2 h3 hs hlt
    have e : (c &&& 0x7) <<< 18 ||| (d1 &&& 0x3F) <<< 12 ||| (d2 &&& 0x3F) <<< 6 ||| (d3 &&& 0x3F)
        = msbFirstValue4 c d1 d2 d3 := by
      rw [fold4 _ (land63_lt d1) (land63_lt d2) (land63_lt d3), msbFirstValue4]
      norm_num
    rw [next, next_lead4 hc, next_cont3 h1, next_cont2 h2, next_cont1 h3, e,
      if_pos hs, unwrapChar_scalar hs hlt]

theorem continuation_fold_msb_first_witness :
    next [.ok 0xC2, .ok 0xA3] = (.char (msbFirstValue2 0xC2 0xA3), []) ∧
    next [.ok 0xE2, .ok 0x82, .ok 0xAC] = (.char (msbFirstValue3 0xE2 0x82 0xAC), []) ∧
    next [.ok 0xF0, .ok 0x90, .ok 0x8D, .ok 0x88] =
      (.char (msbFirstValue4 0xF0 0x90 0x8D 0x88), []) :=
  ⟨continuation_fold_msb_first.1 0xC2 0xA3 [] (by decide) (by decide) (by decide) (by decide),
   continuation_fold_msb_first.2.1 0xE2 0x82 0xAC [] (by decide) (by decide) (by decide)
     (by decide),
   continuation_fold_msb_first.2.2 0xF0 0x90 0x8D 0x88 [] (by decide) (by decide)
     (by decide) (by decide) (by decide) (by decide)⟩

/-- C2 (code bug): the claim says no failure mode other than a decoded
character, the replacement character, a propagated source error, or
end-of-stream is possible, in particular no panic, even for 4-byte
sequences assembling beyond `0x10FFFF`.  The code, however, calls
`char::from_u32(codepoint).unwrap()` on the assembled value, and for
the well-formed 4-byte sequence `[0xF4, 0x90, 0x80, 0x80]` the
assembled code point is `0x110000 > 0x10FFFF`, so `char::from_u32`
returns `None` and the `unwrap` panics. -/
theorem beyond_max_scalar_panics :
    next [.ok 0xF4, .ok 0x90, .ok 0x80, .ok 0x80] = (.panicked, []) := by decide

/-- C1 (counterexample): with the byte source exhausted right after the
valid 2-byte leading byte `0xC2` has been consumed, the `for` loop of
`next` simply ends, so the call returns end-of-stream (`None`) — not
the replacement character as the claim states. -/
theorem truncated_gives_eos_not_replacement :
    next [.ok 0xC2] = (.eos, []) ∧
      (NextResult.eos, ([] : Utf8Decoder)) ≠ (.char REPLACEMENT_CHARACTER, ([] : Utf8Decoder)) := by
  exact ⟨rfl, by decide⟩

/-- C1 (amended): if the source is exhausted mid-sequence — a valid
multi-byte leading byte has been consumed, followed by fewer valid
continuation bytes than the sequence needs — the call returns
end-of-stream, not the replacement character. -/
theorem truncated_sequence_gives_eos (c : Nat) (ds : List Nat)
    (hclass : (c &&& 0xE0 = 0xC0 ∧ c ≠ 0xC0 ∧ c ≠ 0xC1 ∧ ds.length < 1) ∨
              (c &&& 0xF0 = 0xE0 ∧ ds.length < 2) ∨
              (c &&& 0xF8 = 0xF0 ∧ ds.length < 3))
    (hds : ∀ d ∈ ds, d &&& 0xC0 = 0x80) :
    next (.ok c :: ds.map .ok) = (.eos, []) := by
  rcases hclass with ⟨h, h0, h1, hl⟩ | ⟨h, hl⟩ | ⟨h, hl⟩
  · match ds, hl with
    | [], _ => rw [next, List.map_nil, next_lead2 h h0 h1, nextLoop_nil]
  · match ds, hl with
    | [], _ => rw [next, List.map_nil, next_lead3 h, nextLoop_nil]
    | [d], _ =>
      have hd := hds d (by simp)
      rw [next, List.map_cons, List.map_nil, next_lead3 h, next_cont2 hd, nextLoop_nil]
  · match ds, hl with
    | [], _ => rw [next, List.map_nil, next_lead4 h, nextLoop_nil]
    | [d], _ =>
      have hd := hds d (by simp)
      rw [next, List.map_cons, List.map_nil, next_lead4 h, next_cont3 hd, nextLoop_nil]
    | [d, d'], _ =>
      have hd := hds d (by simp)
      have hd' := hds d' (by simp)
      rw [next, List.map_cons, List.map_cons, List.map_nil, next_lead4 h, next_cont3 hd,
        next_cont2 hd', nextLoop_nil]

theorem truncated_sequence_gives_eos_witness :
    next (.ok 0xE2 :: List.map .ok [0x82]) = (.eos, []) :=
  truncated_sequence_gives_eos 0xE2 [0x82] (Or.inr (Or.inl (by decide))) (by decide)

/-- Every call consumes a prefix of the remaining source: the items left
over are a suffix of the input items, and unless the call reports
end-of-stream it consumed at least one item. -/
theorem nextLoop_consumes :
    ∀ (l : List SourceItem) (acc : Nat) (k : Int),
      (nextLoop acc k l).2 <:+ l ∧
        ((nextLoop acc k l).1 ≠ .eos → (nextLoop acc k l).2.length < l.length) := by
  intro l
  induction l with
  | nil => exact fun acc k => ⟨List.nil_suffix, fun h => absurd rfl h⟩
  | cons item tl ih =>
    intro acc k
    cases item with
    | err e => exact ⟨List.suffix_cons _ _, fun _ => Nat.lt_succ_self _⟩
    | ok c =>
      simp only [nextLoop]
      split_ifs
      all_goals
        first
        | exact ⟨List.suffix_cons _ _, fun _ => Nat.lt_succ_self _⟩
        | exact ⟨((ih _ _).1).trans (List.suffix_cons _ _),
            fun hne => Nat.lt_succ_of_lt ((ih _ _).2 hne)⟩

/-- C10: the decoder holds no partially-decoded state between calls.
In the model this is manifest in the types and is strengthened to the
behavioural invariant it is meant to guarantee: the `Utf8Decoder` state
is nothing but the byte-source iteration handle, `next` restarts with
`codepoint = 0` and `bytes_remaining_count = -1`, and the state it
leaves for the following call is always a suffix of the items it was
given — no rejected or unconsumed byte is ever replayed — with at
least one item consumed whenever the call did not report end-of-stream. -/
theorem no_state_between_calls (d : Utf8Decoder) :
    next d = nextLoop 0 (-1) d ∧ (next d).2 <:+ d ∧
      ((next d).1 ≠ .eos → (next d).2.length < d.length) :=
  ⟨rfl, (nextLoop_consumes d 0 (-1)).1, (nextLoop_consumes d 0 (-1)).2⟩

theorem no_state_between_calls_witness :
    (next [.ok 0x61, .ok 0x62]).2 <:+ [.ok 0x61, .ok 0x62] ∧
      (next [.ok 0x61, .ok 0x62]).2.length < [SourceItem.ok 0x61, .ok 0x62].length :=
  ⟨(no_state_between_calls [.ok 0x61, .ok 0x62]).2.1,
   (no_state_between_calls [.ok 0x61, .ok 0x62]).2.2 (by decide)⟩

/-- C3: decoding the standard UTF-8 encoding of any code point `p` below
`0x110000` outside the surrogate range yields exactly the scalar value
`p` with the whole input consumed, and the following call reports
end-of-stream. -/
theorem roundtrip_standard_encoding (p : Nat) (hp : p < 0x110000)
    (hs : ¬ (0xD800 ≤ p ∧ p ≤ 0xDFFF)) :
    next ((utf8Encode p).map .ok) = (.char p, []) ∧ next [] = (.eos, []) := by
  refine ⟨?_, rfl⟩
  by_cases h1 : p < 0x80
  · have henc : utf8Encode p = [p] := by rw [utf8Encode, if_pos h1]
    rw [henc, List.map_cons, List.map_nil, next, next_lead_ascii (land128_of_lt p h1),
      unwrapChar_scalar (by omega) (by omega)]
  by_cases h2 : p < 0x800
  · have henc : utf8Encode p = [0xC0 + p / 64, 0x80 + p % 64] := by
      rw [utf8Encode, if_neg h1, if_pos h2]
    obtain ⟨hl2, hl2'⟩ := lead2_land (p / 64) (by omega)
    obtain ⟨hca, hca'⟩ := cont_land (p % 64) (by omega)
    rw [henc, List.map_cons, List.map_cons, List.map_nil, next,
      next_lead2 hl2 (by omega) (by omega), next_cont1 hca, hl2', hca',
      fold2 _ (by omega)]
    have hpv : p / 64 * 64 + p % 64 = p := by omega
    rw [hpv, if_pos (by omega), unwrapChar_scalar (by omega) (by omega)]
  by_cases h3 : p < 0x10000
  · have henc : utf8Encode p = [0xE0 + p / 4096, 0x80 + p / 64 % 64, 0x80 + p % 64] := by
      rw [utf8Encode, if_neg h1, if_neg h2, if_pos h3]
    obtain ⟨hl3, hl3'⟩ := lead3_land (p / 4096) (by omega)
    obtain ⟨hca, hca'⟩ := cont_land (p / 64 % 64) (by omega)
    obtain ⟨hcb, hcb'⟩ := cont_land (p % 64) (by omega)
    rw [henc, List.map_cons, List.map_cons, List.map_cons, List.map_nil, next,
      next_lead3 hl3, next_cont2 hca, next_cont1 hcb, hl3', hca', hcb',
      fold3 _ (by omega) (by omega)]
    have hpv : p / 4096 * 4096 + p / 64 % 64 * 64 + p % 64 = p := by omega
    rw [hpv, if_pos hs, unwrapChar_scalar hs (by omega)]
  · have henc : utf8Encode p =
        [0xF0 + p / 262144, 0x80 + p / 4096 % 64, 0x80 + p / 64 % 64, 0x80 + p % 64] := by
      rw [utf8Encode, if_neg h1, if_neg h2, if_neg h3]
    obtain ⟨hl4, hl4'⟩ := lead4_land (p / 262144) (by omega)
    obtain ⟨hca, hca'⟩ := cont_land (p / 4096 % 64) (by omega)
    obtain ⟨hcb, hcb'⟩ := cont_land (p / 64 % 64) (by omega)
    obtain ⟨hcc, hcc'⟩ := cont_land (p % 64) (by omega)
    rw [henc, List.map_cons, List.map_cons, List.map_cons, List.map_cons, List.map_nil, next,
      next_lead4 hl4, next_cont3 hca, next_cont2 hcb, next_cont1 hcc, hl4', hca', hcb', hcc',
      fold4 _ (by omega) (by omega) (by omega)]
    have hpv : p / 262144 * 262144 + p / 4096 % 64 * 4096 + p / 64 % 64 * 64 + p % 64 = p := by
      omega
    rw [hpv, if_pos hs, unwrapChar_scalar hs hp]

theorem roundtrip_standard_encoding_witness :
    next ((utf8Encode 0x10348).map .ok) = (.char 0x10348, []) ∧ next [] = (.eos, []) :=
  roundtrip_standard_encoding 0x10348 (by decide) (by decide)
